import Mathlib

/-!
# Verification of the retro-ipcam-webadmin camera protocol client layer

Shallow embedding of the repository's response-grammar parser
(`src/utils/parser.ts`), the camera API clients (`src/utils/apiClient.ts`
and the proxy-only client), and the relay credential handling
(`proxy-server.mjs`), together with theorems settling the frozen claims
about them.

Strings are handled through their character lists; the JavaScript string
operations used by the source (`trim`, `split`, `indexOf`/`substring`,
`includes`, `toLowerCase`) are modelled by executable list functions below.
The model covers the ASCII range the camera protocol uses: JavaScript's
Unicode-aware `trim`/`toLowerCase` agree with these definitions on ASCII
input.
-/

/-! ## Character and list helpers (JavaScript string operations) -/

/-- The whitespace characters relevant to JavaScript's `String.trim` on
ASCII input. -/
def isWS (c : Char) : Bool :=
  c = ' ' || c = '\t' || c = '\n' || c = '\r' || c = '\x0b' || c = '\x0c'

/-- `String.trim`: drop whitespace from both ends. -/
def trimChars (l : List Char) : List Char :=
  ((l.dropWhile isWS).reverse.dropWhile isWS).reverse

/-- `String.split(sep)` for a one-character separator. -/
def splitOnChar (sep : Char) : List Char → List (List Char)
  | [] => [[]]
  | x :: xs =>
    let r := splitOnChar sep xs
    if x = sep then [] :: r
    else
      match r with
      | [] => [[x]]
      | h :: t => (x :: h) :: t

/-- Does `l` start with `pat`? -/
def listStartsWith : List Char → List Char → Bool
  | [], _ => true
  | _ :: _, [] => false
  | a :: as, b :: bs => a = b && listStartsWith as bs

/-- `String.includes(pat)`: is `pat` a contiguous run of `l`? -/
def listContainsSub (pat : List Char) : List Char → Bool
  | [] => listStartsWith pat []
  | x :: xs => listStartsWith pat (x :: xs) || listContainsSub pat xs

/-- `String.toLowerCase` on ASCII. -/
def jsToLower (l : List Char) : List Char :=
  l.map Char.toLower

/-- Digits of an unsigned decimal numeral to its value. -/
def natOfDigits (l : List Char) : Nat :=
  l.foldl (fun a c => a * 10 + (c.toNat - '0'.toNat)) 0

/-- Euclid's algorithm with explicit fuel, so that it is structurally
recursive and evaluates inside the kernel. -/
def gcdFuel : Nat → Nat → Nat → Nat
  | 0, a, _ => a
  | _ + 1, a, 0 => a
  | f + 1, a, b + 1 => gcdFuel f (b + 1) (a % (b + 1))

/-- Greatest common divisor (enough fuel for Euclid's algorithm to
finish). -/
def gcdN (a b : Nat) : Nat :=
  gcdFuel (a + b + 1) a b

/-! ## The dynamic value tree built by the parser

`JSVal` models the JavaScript values the parser produces and stores:
`undefined` stands for the JavaScript value of that name (in particular a hole of a sparse array),
`obj` is an object as its insertion-ordered property list, `arr` an
array.  The property list and the element list are mutually inductive
with the value type so that functions walking the tree are structurally
recursive (and hence evaluate inside the kernel).
-/

mutual

inductive JSVal where
  | undefined : JSVal
  | bool : Bool → JSVal
  /-- A (finite, non-NaN) number, held as an exact fraction in lowest
  terms: `num n d` is the value `n / d`, with `d > 0` for every value the
  model constructs.  The numbers the parser produces come from decimal
  literals; IEEE-754 rounding is not modelled, no claim below depends on
  it. -/
  | num : Int → Nat → JSVal
  | str : String → JSVal
  | obj : JEntries → JSVal
  | arr : JList → JSVal
  deriving Repr, Inhabited, DecidableEq

/-- The insertion-ordered property list of an object. -/
inductive JEntries where
  | nil : JEntries
  | cons : String → JSVal → JEntries → JEntries
  deriving Repr, Inhabited, DecidableEq

/-- The element list of an array. -/
inductive JList where
  | nil : JList
  | cons : JSVal → JList → JList
  deriving Repr, Inhabited, DecidableEq

end

/-- Build a property list from a `List` of pairs. -/
def JEntries.ofList : List (String × JSVal) → JEntries
  | [] => .nil
  | (k, v) :: r => .cons k v (JEntries.ofList r)

/-- Build an element list from a `List`. -/
def JList.ofList : List JSVal → JList
  | [] => .nil
  | v :: r => .cons v (JList.ofList r)

/-- Shorthand: an object value from a list of properties. -/
def jO (l : List (String × JSVal)) : JSVal :=
  .obj (JEntries.ofList l)

/-- Shorthand: an array value from a list of elements. -/
def jA (l : List JSVal) : JSVal :=
  .arr (JList.ofList l)

/-- Property lookup in an insertion-ordered property list. -/
def objGet : JEntries → String → Option JSVal
  | .nil, _ => none
  | .cons k0 v0 rest, k => if k0 = k then some v0 else objGet rest k

/-- Property assignment: update the existing property in place (keeping
its position) or append a new one, as JavaScript objects do. -/
def objSet : JEntries → String → JSVal → JEntries
  | .nil, k, v => .cons k v .nil
  | .cons k0 v0 rest, k, v =>
    if k0 = k then .cons k0 v rest else .cons k0 v0 (objSet rest k v)

/-- Number of elements of an array. -/
def JList.length : JList → Nat
  | .nil => 0
  | .cons _ r => r.length + 1

/-- Element read `a[i]`, holes and out-of-range reads giving
`undefined`. -/
def JList.getD : JList → Nat → JSVal
  | .nil, _ => .undefined
  | .cons v _, 0 => v
  | .cons _ r, i + 1 => r.getD i

/-- Array element assignment `a[i] = v`, padding with holes
when `i` is past the end, as JavaScript sparse arrays do. -/
def arrPadSet : JList → Nat → JSVal → JList
  | .nil, 0, v => .cons v .nil
  | .nil, n + 1, v => .cons .undefined (arrPadSet .nil n v)
  | .cons _ xs, 0, v => .cons v xs
  | .cons x xs, n + 1, v => .cons x (arrPadSet xs n v)

/-- JavaScript truthiness of a modelled value. -/
def truthy : JSVal → Bool
  | .undefined => false
  | .bool b => b
  | .num n _ => n ≠ 0
  | .str s => s ≠ ""
  | .obj _ => true
  | .arr _ => true

/-- Reading property `k` of a value (`undefined` when absent).  The
parser only reads named properties of objects; a named property of any
other value reads as `undefined` here (such reads are outside the
parser's reachable states for the claims below). -/
def jsGetProp (v : JSVal) (k : String) : JSVal :=
  match v with
  | .obj l => (objGet l k).getD .undefined
  | _ => .undefined

/-- `k in current`: property presence. -/
def jsHasProp (v : JSVal) (k : String) : Bool :=
  match v with
  | .obj l => (objGet l k).isSome
  | _ => false

/-- Writing property `k` of a value.  A write on a primitive is lost
(the tree is unchanged), matching the fact that no such write can alter
the parser's result object. -/
def jsSetProp (v : JSVal) (k : String) (x : JSVal) : JSVal :=
  match v with
  | .obj l => .obj (objSet l k x)
  | other => other

/-- Reading index `i`: array element (holes read as `undefined`), or the
numeric-named property of an object. -/
def jsIndexGet (v : JSVal) (i : Nat) : JSVal :=
  match v with
  | .arr l => l.getD i
  | .obj l => (objGet l (toString i)).getD .undefined
  | _ => .undefined

/-- Writing index `i`: array element assignment with sparse padding, or
the numeric-named property of an object. -/
def jsIndexSet (v : JSVal) (i : Nat) (x : JSVal) : JSVal :=
  match v with
  | .arr l => .arr (arrPadSet l i x)
  | .obj l => .obj (objSet l (toString i) x)
  | other => other

/-! ## `parser.ts`: value coercion -/

/-- The body test `\d+(\.\d+)?$` once an optional leading `-` has been
taken off: a non-empty digit run, then nothing or `.` and a non-empty
digit run. -/
def numBodyCheck (l : List Char) : Bool :=
  let ip := l.takeWhile Char.isDigit
  let rest := l.dropWhile Char.isDigit
  !ip.isEmpty &&
    (rest.isEmpty ||
      (match rest with
       | '.' :: fr => !fr.isEmpty && fr.all Char.isDigit
       | _ => false))

/-- The test `/^-?\d+(\.\d+)?$/.test(value)` of `parseValue`. -/
def isNumericLit (l : List Char) : Bool :=
  numBodyCheck (if l.head? = some '-' then l.tail else l)

/-- The exact value of a string matching `-?\d+(\.\d+)?` (`parseFloat`
on such input), as a fraction in lowest terms. -/
def decimalToNum (l : List Char) : Int × Nat :=
  let body := if l.head? = some '-' then l.tail else l
  let ip := body.takeWhile Char.isDigit
  let rest := body.dropWhile Char.isDigit
  let fr := match rest with
    | '.' :: fr => fr
    | _ => []
  let v := natOfDigits (ip ++ fr)
  let d := 10 ^ fr.length
  let g := gcdN v d
  if l.head? = some '-' then (-(v / g : Nat), d / g) else ((v / g : Nat), d / g)

/-- `parseValue` of `parser.ts`: boolean literals (case-insensitive),
then the decimal-number test, then quote-stripping, else the string
itself.  `value.slice(1, -1)` drops the first and last character. -/
def parseValue (l : List Char) : JSVal :=
  if jsToLower l = "true".data then .bool true
  else if jsToLower l = "false".data then .bool false
  else if isNumericLit l then .num (decimalToNum l).1 (decimalToNum l).2
  else if listStartsWith "\"".data l && listStartsWith "\"".data l.reverse then
    .str (String.mk (l.drop 1).dropLast)
  else .str (String.mk l)

/-! ## `parser.ts`: nested assignment -/

/-- The match `part.match(/^(\w+)\[(\d+)\]$/)` of `setNestedArrayValue`:
a non-empty run of word characters, `[`, a non-empty run of digits, `]`,
nothing else.  Returns the name and the parsed index. -/
def parseIndexed (p : List Char) : Option (String × Nat) :=
  let isWord : Char → Bool := fun c => c.isAlphanum || c = '_'
  let name := p.takeWhile isWord
  let rest := p.dropWhile isWord
  if name.isEmpty then none
  else
    match rest with
    | '[' :: rest2 =>
      let digits := rest2.takeWhile Char.isDigit
      let tail := rest2.dropWhile Char.isDigit
      if digits.isEmpty then none
      else if tail = [']'] then some (String.mk name, natOfDigits digits)
      else none
    | _ => none

/-- `setNestedValue` of `parser.ts` (dotted paths), as a function of the
tree: descend creating empty objects, assign at the last non-empty
segment; empty segments are skipped and an empty last segment assigns
nothing. -/
def setDotted (v : JSVal) (parts : List (List Char)) (value : JSVal) : JSVal :=
  match parts with
  | [] => v
  | [last] => if last.isEmpty then v else jsSetProp v (String.mk last) value
  | p :: rest =>
    if p.isEmpty then setDotted v rest value
    else
      let child := if jsHasProp v (String.mk p) then jsGetProp v (String.mk p) else .obj .nil
      jsSetProp v (String.mk p) (setDotted child rest value)

/-- `setNestedArrayValue` of `parser.ts`: each segment is either
`name[index]` — ensure an array at `name`, ensure a truthy entry (default
`{}`) at `index`, assign there when last, descend otherwise — or a plain
property name treated as in `setNestedValue`. -/
def setNestedArray (v : JSVal) (parts : List (List Char)) (value : JSVal) : JSVal :=
  match parts with
  | [] => v
  | p :: rest =>
    if p.isEmpty then setNestedArray v rest value
    else
      match parseIndexed p with
      | some (name, i) =>
        let base := if jsHasProp v name then jsGetProp v name else .arr .nil
        let entry := jsIndexGet base i
        let base1 := if truthy entry then base else jsIndexSet base i (.obj .nil)
        if rest.isEmpty then jsSetProp v name (jsIndexSet base1 i value)
        else
          let entry1 := jsIndexGet base1 i
          jsSetProp v name (jsIndexSet base1 i (setNestedArray entry1 rest value))
      | none =>
        if rest.isEmpty then jsSetProp v (String.mk p) value
        else
          let child := if jsHasProp v (String.mk p) then jsGetProp v (String.mk p) else .obj .nil
          jsSetProp v (String.mk p) (setNestedArray child rest value)

/-! ## `parser.ts`: line handling -/

/-- The dispatch of `parseKeyValueResponse` on a (trimmed, non-empty)
key: bracket notation, dotted notation, or a simple property. -/
def dispatchKey (result : JSVal) (key : List Char) (pv : JSVal) : JSVal :=
  if key.contains '[' && key.contains ']' then
    setNestedArray result (splitOnChar '.' key) pv
  else if key.contains '.' then
    setDotted result (splitOnChar '.' key) pv
  else jsSetProp result (String.mk key) pv

/-- One iteration of the line loop of `parseKeyValueResponse`: skip a
literal `Error` line, find the first `=` (skip the line when there is
none), trim key and value, skip an empty key, coerce the value and
dispatch on the key's notation. -/
def processLine (result : JSVal) (line : List Char) : JSVal :=
  if trimChars line = "Error".data then result
  else
    let before := line.takeWhile (fun c => c ≠ '=')
    let after := line.dropWhile (fun c => c ≠ '=')
    match after with
    | [] => result
    | _ :: afterEq =>
      let key := trimChars before
      let value := trimChars afterEq
      if key.isEmpty then result
      else dispatchKey result key (parseValue value)

/-- `parseKeyValueResponse` of `parser.ts`. -/
def parseKeyValueResponse (text : String) : JSVal :=
  let t := text.data
  if trimChars t = [] || trimChars t = "OK".data then .obj .nil
  else ((splitOnChar '\n' t).filter (fun l => trimChars l ≠ [])).foldl processLine (.obj .nil)

example : parseKeyValueResponse "status.Focus=0.5" =
    jO [("status", jO [("Focus", .num 1 2)])] := by decide
example : parseKeyValueResponse "Enable=true" = jO [("Enable", .bool true)] := by decide
example : parseKeyValueResponse "OK" = jO [] := by decide
example : parseKeyValueResponse "Encode[0].MainFormat[0].Video.Width=1920" =
    jO [("Encode", jA [jO [("MainFormat",
      jA [jO [("Video", jO [("Width", .num 1920 1)])]])]])] := by decide

/-! ## `parser.ts`: `extractSimpleValues` -/

/-- `result[k] = v` on the flat result mapping: update in place or
append. -/
def assocSet (l : List (String × String)) (k v : String) : List (String × String) :=
  match l with
  | [] => [(k, v)]
  | (k0, v0) :: rest =>
    if k0 = k then (k0, v) :: rest else (k0, v0) :: assocSet rest k v

/-- The digit character for `k < 10`. -/
def digitChar (k : Nat) : Char :=
  Char.ofNat ('0'.toNat + k)

/-- Decimal expansion of the remainder `r / d` (fuelled long division;
every number the parser builds has a finite expansion, reached before the
fuel runs out). -/
def fracDigits : Nat → Nat → Nat → List Char
  | 0, _, _ => []
  | f + 1, r, d =>
    if r = 0 then []
    else digitChar (r * 10 / d) :: fracDigits f (r * 10 % d) d

/-- JavaScript's `String(x)` for a finite number held as `n / d`. -/
def numToString (n : Int) (d : Nat) : String :=
  let a := n.natAbs
  let sign := if n < 0 then "-" else ""
  let ip := a / d
  let r := a % d
  sign ++ toString ip ++ (if r = 0 then "" else "." ++ String.mk (fracDigits d r d))

/-- JavaScript's `String(x)` for the leaf values `extractSimpleValues`
can meet. -/
def jsStringOfLeaf : JSVal → String
  | .undefined => "undefined"
  | .bool b => if b then "true" else "false"
  | .num n d => numToString n d
  | .str s => s
  | .obj _ => "[object Object]"
  | .arr _ => ""

mutual

/-- The body of the `traverse` closure of `extractSimpleValues` for one
property value: an object (not an array, never `null` in a parsed tree)
is walked recursively under the extended dotted path; an array has
`typeof` `"object"`, so neither branch applies and it is skipped
entirely; every other value is stringified into the flat result. -/
def esvVisit : JSVal → String → List (String × String) → List (String × String)
  | .obj es, fullPath, acc => esvEntries es fullPath acc
  | .arr _, _, acc => acc
  | leaf, fullPath, acc => assocSet acc fullPath (jsStringOfLeaf leaf)

/-- The `for (const key in obj)` loop of `traverse`, left to right. -/
def esvEntries : JEntries → String → List (String × String) → List (String × String)
  | .nil, _, acc => acc
  | .cons k v rest, path, acc =>
    esvEntries rest path (esvVisit v (if path = "" then k else path ++ "." ++ k) acc)

end

/-- `extractSimpleValues` of `parser.ts`. -/
def extractSimpleValues (parsed : JSVal) (prefixPath : String) : List (String × String) :=
  match parsed with
  | .obj entries => esvEntries entries prefixPath []
  | _ => []

example : extractSimpleValues (parseKeyValueResponse "a.b=1\nc[0]=2\nd=x") "" =
    [("a.b", "1"), ("d", "x")] := by decide
example : extractSimpleValues (parseKeyValueResponse "v=0.25") "" = [("v", "0.25")] := by decide

/-! ## Base64 and URL encoding -/

/-- The base64 alphabet character for a sextet. -/
def b64Char (n : Nat) : Char :=
  "ABCDEFGHIJKLMNOPQRSTUVWXYZabcdefghijklmnopqrstuvwxyz0123456789+/".data.getD n '='

/-- Standard base64 of a byte list, with `=` padding. -/
def base64Encode : List Nat → List Char
  | [] => []
  | [a] => [b64Char (a / 4), b64Char (a % 4 * 16), '=', '=']
  | [a, b] => [b64Char (a / 4), b64Char (a % 4 * 16 + b / 16), b64Char (b % 16 * 4), '=']
  | a :: b :: c :: rest =>
    b64Char (a / 4) :: b64Char (a % 4 * 16 + b / 16) ::
      b64Char (b % 16 * 4 + c / 64) :: b64Char (c % 64) :: base64Encode rest

/-- The browser's `btoa`: base64 of the string's code points as Latin-1
bytes.  (`btoa` raises beyond code point 255; the clients only encode
credentials, taken ASCII here, so the wrap-around keeps the model total
without affecting any claim.) -/
def btoa (s : String) : String :=
  String.mk (base64Encode (s.data.map (fun c => c.toNat % 256)))

example : btoa "admin:pass" = "YWRtaW46cGFzcw==" := by decide

/-- Index of a character in the base64 alphabet. -/
def b64IndexAux : List Char → Char → Nat → Option Nat
  | [], _, _ => none
  | a :: rest, c, i => if a = c then some i else b64IndexAux rest c (i + 1)

/-- Index of a character in the base64 alphabet (`=`, and anything else
outside the alphabet, has none). -/
def b64Index (c : Char) : Option Nat :=
  b64IndexAux "ABCDEFGHIJKLMNOPQRSTUVWXYZabcdefghijklmnopqrstuvwxyz0123456789+/".data c 0

/-- Sextets to bytes (a trailing partial group contributes its complete
bytes, as lenient decoders do). -/
def b64DecodeSextets : List Nat → List Nat
  | a :: b :: c :: d :: rest =>
    (a * 4 + b / 16) :: (b % 16 * 16 + c / 4) :: (c % 4 * 64 + d) :: b64DecodeSextets rest
  | [a, b] => [a * 4 + b / 16]
  | [a, b, c] => [a * 4 + b / 16, b % 16 * 16 + c / 4]
  | _ => []

/-- `Buffer.from(s, "base64")`: lenient base64 decoding — characters
outside the alphabet (including the `=` padding) are skipped. -/
def base64Decode (s : String) : List Nat :=
  b64DecodeSextets (s.data.filterMap b64Index)

/-- `Buffer.toString()` of decoded bytes.  (UTF-8 multi-byte sequences
are not decoded; the claims below use ASCII credentials, where the byte
is the code point.) -/
def bytesToString (l : List Nat) : String :=
  String.mk (l.map Char.ofNat)

example : bytesToString (base64Decode "Zm9v") = "foo" := by decide
example : bytesToString (base64Decode (btoa "admin:pass")) = "admin:pass" := by decide

/-- The hexadecimal digit character (uppercase) for `k < 16`. -/
def hexDigit (k : Nat) : Char :=
  if k < 10 then digitChar k else Char.ofNat ('A'.toNat + (k - 10))

/-- UTF-8 bytes of one code point. -/
def utf8Bytes (c : Char) : List Nat :=
  let n := c.toNat
  if n < 0x80 then [n]
  else if n < 0x800 then [0xC0 + n / 64, 0x80 + n % 64]
  else if n < 0x10000 then [0xE0 + n / 4096, 0x80 + n / 64 % 64, 0x80 + n % 64]
  else [0xF0 + n / 262144, 0x80 + n / 4096 % 64, 0x80 + n / 64 % 64, 0x80 + n % 64]

/-- One character of `URLSearchParams.toString()`'s
`application/x-www-form-urlencoded` serialization: alphanumerics and
`*-._` kept, space becomes `+`, anything else percent-encoded per UTF-8
byte. -/
def formEncodeChar (c : Char) : List Char :=
  if c.isAlphanum || c = '*' || c = '-' || c = '.' || c = '_' then [c]
  else if c = ' ' then ['+']
  else ((utf8Bytes c).map (fun b => ['%', hexDigit (b / 16), hexDigit (b % 16)])).flatten

/-- `URLSearchParams.toString()` of an ordered parameter list. -/
def urlSearchParams (params : List (String × String)) : String :=
  String.intercalate "&"
    (params.map (fun kv => String.mk (kv.1.data.map formEncodeChar).flatten ++ "=" ++
      String.mk (kv.2.data.map formEncodeChar).flatten))

example : urlSearchParams [("action", "getConfig"), ("name", "General")] =
    "action=getConfig&name=General" := by decide

/-! ## `apiClient.ts`: the dual-mode `CameraApiClient` -/

/-- The decrypted connection settings the client is constructed from
(`port = 0` models an unset/falsy port, defaulted by `settings.port ||
80`). -/
structure ConnectionSettings where
  host : String
  port : Nat
  username : String
  password : String
  secure : Bool
  proxyMode : Bool
  deriving Repr, DecidableEq

/-- `settings.port || 80`. -/
def portOr80 (p : Nat) : Nat :=
  if p = 0 then 80 else p

/-- The instance fields of `CameraApiClient` (`apiClient.ts`): the base
URL, whether the digest-fetch client was initialized (`client !== null`),
the `connected` flag, the mode, and the prepared proxy auth header. -/
structure ClientState where
  baseUrl : String
  hasDigestClient : Bool
  connected : Bool
  proxyMode : Bool
  authHeader : String
  deriving Repr, DecidableEq

/-- The constructor of `CameraApiClient`. -/
def initClient (s : ConnectionSettings) : ClientState :=
  let port := portOr80 s.port
  if s.proxyMode then
    { baseUrl := "http://localhost:3001/proxy/" ++ s.host ++ "/" ++ toString port,
      hasDigestClient := false, connected := false, proxyMode := true,
      authHeader := "Basic " ++ btoa (s.username ++ ":" ++ s.password) }
  else
    { baseUrl := (if s.secure then "https" else "http") ++ "://" ++ s.host ++ ":" ++ toString port,
      hasDigestClient := true, connected := false, proxyMode := false,
      authHeader := "Basic " ++ btoa (s.username ++ ":" ++ s.password) }

/-- A response the transport resolved with. -/
structure HttpResponse where
  status : Nat
  statusText : String
  body : String
  deriving Repr, DecidableEq

/-- A request as issued: method, full URL, explicit headers. -/
structure HttpRequest where
  method : String
  url : String
  headers : List (String × String)
  deriving Repr, DecidableEq

/-- The two transports a client instance can reach: the browser's
`fetch` (proxy mode, explicit headers) and the digest-fetch session
(direct mode, credentials bound at construction).  A `.error` is a
rejected promise (network failure); HTTP statuses come back in the
response. -/
structure Transports where
  plainFetch : HttpRequest → Except String HttpResponse
  digestFetch : String → Except String HttpResponse

/-- `Response.ok`: status in the 2xx range. -/
def respOk (r : HttpResponse) : Bool :=
  200 ≤ r.status && r.status < 300

/-- The URL construction of `cgiRequest`:
`{baseUrl}/cgi-bin/{endpoint}.cgi{?query}`. -/
def cgiUrl (baseUrl endpoint : String) (params : List (String × String)) : String :=
  let queryString := urlSearchParams params
  baseUrl ++ "/cgi-bin/" ++ endpoint ++ ".cgi" ++
    (if queryString = "" then "" else "?" ++ queryString)

/-- `cgiRequest` of `apiClient.ts`: build the URL, fetch it over the
mode's transport, raise `HTTP {status}: {statusText}` on a non-2xx
response, return the body text otherwise.  The `catch` block logs and
rethrows, so failures pass through unchanged. -/
def cgiRequest (t : Transports) (c : ClientState) (endpoint : String)
    (params : List (String × String)) : Except String String :=
  let url := cgiUrl c.baseUrl endpoint params
  let resp :=
    if c.proxyMode then t.plainFetch ⟨"GET", url, [("x-camera-auth", c.authHeader)]⟩
    else if c.hasDigestClient then t.digestFetch url
    else .error "Digest client not initialized"
  match resp with
  | .error e => .error e
  | .ok r =>
    if respOk r then .ok r.body
    else .error ("HTTP " ++ toString r.status ++ ": " ++ r.statusText)

/-- The body of `getDeviceType` before its `catch`: request, parse,
`parsed.type || null`. -/
def getDeviceTypeBody (t : Transports) (c : ClientState) : Except String (Option JSVal) :=
  match cgiRequest t c "magicBox" [("action", "getDeviceType")] with
  | .error e => .error e
  | .ok text =>
    let parsed := parseKeyValueResponse text
    let ty := jsGetProp parsed "type"
    .ok (if truthy ty then some ty else none)

/-- `getDeviceType`: any failure of the body is caught and becomes
`null`. -/
def getDeviceType (t : Transports) (c : ClientState) : Option JSVal :=
  match getDeviceTypeBody t c with
  | .ok v => v
  | .error _ => none

/-- `getConfig`: request `configManager` with `action=getConfig&name=`,
parse on success; the `catch` logs and rethrows, so the failure is passed
to the caller unchanged. -/
def getConfig (t : Transports) (c : ClientState) (name : String) : Except String JSVal :=
  match cgiRequest t c "configManager" [("action", "getConfig"), ("name", name)] with
  | .ok text => .ok (parseKeyValueResponse text)
  | .error e => .error e

/-- Object-literal spread `{...base, ...params}`: later keys override in
place, new keys append, as JavaScript property order does. -/
def spreadInto (base params : List (String × String)) : List (String × String) :=
  params.foldl (fun acc kv => assocSet acc kv.1 kv.2) base

/-- `setConfig`: request `configManager` with `{action: 'setConfig',
...params}` merged into the query; `text.includes('OK') ||
text.includes('ok')` on success, `false` on any failure. -/
def setConfig (t : Transports) (c : ClientState) (params : List (String × String)) : Bool :=
  match cgiRequest t c "configManager" (spreadInto [("action", "setConfig")] params) with
  | .ok text => listContainsSub "OK".data text.data || listContainsSub "ok".data text.data
  | .error _ => false

/-- `reboot`: true when the request completed, false on any failure. -/
def reboot (t : Transports) (c : ClientState) : Bool :=
  match cgiRequest t c "magicBox" [("action", "reboot")] with
  | .ok _ => true
  | .error _ => false

/-- `getSnapshot` of `apiClient.ts` (body bytes as a string): `null` on
any failure. -/
def getSnapshot (t : Transports) (c : ClientState) (channel : Nat) : Option String :=
  let url := c.baseUrl ++ "/cgi-bin/snapshot.cgi?channel=" ++ toString channel
  let resp :=
    if c.proxyMode then t.plainFetch ⟨"GET", url, [("x-camera-auth", c.authHeader)]⟩
    else if c.hasDigestClient then t.digestFetch url
    else .error "Digest client not initialized"
  match resp with
  | .error _ => none
  | .ok r => if respOk r then some r.body else none

/-- `testConnection`, with its write to `this.connected`
(`this.connected = !!deviceType`): the one operation that changes an
instance field. -/
def testConnection (t : Transports) (c : ClientState) : Bool × ClientState :=
  let deviceType := getDeviceType t c
  let conn := match deviceType with
    | some v => truthy v
    | none => false
  (conn, { c with connected := conn })

/-- `getDeviceType` as a state transformer (the source method assigns no
instance field). -/
def getDeviceTypeOp (t : Transports) (c : ClientState) : Option JSVal × ClientState :=
  (getDeviceType t c, c)

/-- `getConfig` as a state transformer (no instance field assigned). -/
def getConfigOp (t : Transports) (c : ClientState) (name : String) :
    Except String JSVal × ClientState :=
  (getConfig t c name, c)

/-- `setConfig` as a state transformer (no instance field assigned). -/
def setConfigOp (t : Transports) (c : ClientState) (params : List (String × String)) :
    Bool × ClientState :=
  (setConfig t c params, c)

/-- `reboot` as a state transformer (no instance field assigned). -/
def rebootOp (t : Transports) (c : ClientState) : Bool × ClientState :=
  (reboot t c, c)

/-- `getSnapshot` as a state transformer (no instance field assigned). -/
def getSnapshotOp (t : Transports) (c : ClientState) (channel : Nat) :
    Option String × ClientState :=
  (getSnapshot t c channel, c)

/-! ## The proxy-only `CameraApiClient` (relayed mode) -/

/-- The instance fields of the proxy-only client: relay base URL,
`connected` flag, prepared auth header. -/
structure PClient where
  baseUrl : String
  connected : Bool
  authHeader : String
  deriving Repr, DecidableEq

/-- Its constructor: relative relay path `/proxy/{host}/{port}` as base
URL, `Basic base64(username:password)` as the injected header value; no
digest session exists in this client. -/
def pInit (s : ConnectionSettings) : PClient :=
  { baseUrl := "/proxy/" ++ s.host ++ "/" ++ toString (portOr80 s.port),
    connected := false,
    authHeader := "Basic " ++ btoa (s.username ++ ":" ++ s.password) }

/-- The request `cgiRequest` of the proxy-only client issues: a plain
GET on `{baseUrl}/cgi-bin/{endpoint}.cgi{?query}` whose only explicit
header is `x-camera-auth`. -/
def pCgiRequestReq (c : PClient) (endpoint : String) (params : List (String × String)) :
    HttpRequest :=
  ⟨"GET", cgiUrl c.baseUrl endpoint params, [("x-camera-auth", c.authHeader)]⟩

/-- `getSnapshotUrl` of the proxy-only client. -/
def pSnapshotUrl (c : PClient) (channel : Nat) : String :=
  c.baseUrl ++ "/cgi-bin/snapshot.cgi?channel=" ++ toString channel

/-- The request `getSnapshot` of the proxy-only client issues. -/
def pSnapshotReq (c : PClient) (channel : Nat) : HttpRequest :=
  ⟨"GET", pSnapshotUrl c channel, [("x-camera-auth", c.authHeader)]⟩

/-! ## `proxy-server.mjs`: the relay -/

/-- `authHeader.split(' ')[1] || ''`: the payload token after the scheme
word. -/
def proxyAuthPayload (h : String) : List Char :=
  (splitOnChar ' ' h.data).getD 1 []

/-- The destructuring `const [user, pass] = decoded.split(':')` with its
per-component fallbacks `user || 'admin'` and `pass || ''`. -/
def credsOfDecoded (decoded : String) : String × String :=
  let parts := splitOnChar ':' decoded.data
  let user := String.mk (parts.getD 0 [])
  (if user = "" then "admin" else user,
    match parts.get? 1 with
    | some p => String.mk p
    | none => "")

/-- Credentials from a present, non-empty `x-camera-auth` header:
base64-decode the payload token, then destructure at `:`. -/
def proxyCredsOf (h : String) : String × String :=
  credsOfDecoded (bytesToString (base64Decode (String.mk (proxyAuthPayload h))))

/-- The credential extraction of the relay middleware: the defaults
`admin`/`""` stand when the header is absent (or empty, which is falsy
in the `if (authHeader)` guard). -/
def proxyCreds : Option String → String × String
  | none => ("admin", "")
  | some h => if h = "" then ("admin", "") else proxyCredsOf h

/-- The digest fetch the relay goes on to perform against the camera. -/
structure ForwardAction where
  targetUrl : String
  username : String
  password : String
  deriving Repr, DecidableEq

/-- The non-empty path components of the relay request URL (`req.url`
with the `/proxy` mount prefix already stripped by Express, query string
split off). -/
def proxyParts (reqUrl : String) : List (List Char) :=
  (splitOnChar '/' ((splitOnChar '?' reqUrl.data).getD 0 [])).filter (fun p => p ≠ [])

/-- The forwarded request the middleware builds once the URL shape is
accepted: target URL from host, port, remaining path and query string;
credentials from the optional `x-camera-auth` header. -/
def proxyForward (reqUrl : String) (authHeader : Option String) : ForwardAction :=
  let urlParts := proxyParts reqUrl
  let qsuffix := match (splitOnChar '?' reqUrl.data).get? 1 with
    | some q => if q = [] then "" else "?" ++ String.mk q
    | none => ""
  { targetUrl := "http://" ++ String.mk (urlParts.getD 0 []) ++ ":"
      ++ String.mk (urlParts.getD 1 []) ++ "/"
      ++ String.intercalate "/" ((urlParts.drop 2).map String.mk) ++ qsuffix,
    username := (proxyCreds authHeader).1,
    password := (proxyCreds authHeader).2 }

/-- The relay middleware up to issuing the camera request: reject with a
400 only when fewer than two path components remain; otherwise forward
with the extracted credentials. -/
def proxyMiddleware (reqUrl : String) (authHeader : Option String) :
    Except Nat ForwardAction :=
  if (proxyParts reqUrl).length < 2 then .error 400
  else .ok (proxyForward reqUrl authHeader)

example : proxyMiddleware "/192.168.1.10/80/cgi-bin/magicBox.cgi?action=getDeviceType" none =
    .ok ⟨"http://192.168.1.10:80/cgi-bin/magicBox.cgi?action=getDeviceType", "admin", ""⟩ := by
  rfl
example : proxyCreds (some "Basic Zm9v") = ("foo", "") := by decide

/-! ## Claim-side definitions and shared helpers -/

/-- Claim side of C2: the response text contains the substring `ok`
case-insensitively. -/
def ciContainsOk (s : String) : Bool :=
  listContainsSub "ok".data (jsToLower s.data)

/-- A transport pair whose every fetch resolves with status 200 and the
given body. -/
def tOkBody (body : String) : Transports :=
  ⟨fun _ => .ok ⟨200, "OK", body⟩, fun _ => .ok ⟨200, "OK", body⟩⟩

/-- A transport pair whose every fetch rejects with the given message. -/
def tFail (msg : String) : Transports :=
  ⟨fun _ => .error msg, fun _ => .error msg⟩

/-- A proxy-mode client used for concrete instantiations. -/
def cProxy : ClientState :=
  initClient ⟨"cam.local", 80, "admin", "pass", false, true⟩

/-- If `sep` does not occur in `l`, splitting is the identity. -/
theorem splitOnChar_no_sep (sep : Char) (l : List Char) (h : l.contains sep = false) :
    splitOnChar sep l = [l] := by
  induction l with
  | nil => rfl
  | cons x xs ih =>
    rw [List.contains_cons] at h
    simp only [Bool.or_eq_false_iff, beq_eq_false_iff_ne, ne_eq] at h
    unfold splitOnChar
    rw [if_neg (fun hx => h.1 hx.symm), ih h.2]

/-! ## C1 -/

/-- C1: for every transport behaviour, client state and config name,
`getConfig` raises exactly the failures of its underlying `configManager`
CGI request (transport rejections and non-2xx HTTP statuses alike, with
the same error), while `getDeviceType` catches every failure of its
`magicBox` request body and returns `null` (`none`) instead. -/
theorem c1_getConfig_raises_getDeviceType_null (t : Transports) (c : ClientState)
    (name : String) (e : String) :
    (getConfig t c name = .error e ↔
      cgiRequest t c "configManager" [("action", "getConfig"), ("name", name)] = .error e)
    ∧ (getDeviceTypeBody t c = .error e → getDeviceType t c = none) := by
  constructor
  · unfold getConfig
    cases cgiRequest t c "configManager" [("action", "getConfig"), ("name", name)] <;> simp
  · intro h
    unfold getDeviceType
    rw [h]

/-! ## C2 -/

/-- C2 counterexample: a 200 response with body `"Ok"` contains the
substring `ok` case-insensitively, yet `setConfig` returns `false` — its
check `text.includes('OK') || text.includes('ok')` is case-sensitive. -/
theorem c2_counterexample :
    ciContainsOk "Ok" = true ∧ setConfig (tOkBody "Ok") cProxy [] = false := by decide

/-- C2 (amended): `setConfig` returns `true` iff its `configManager`
request succeeded with a body containing `"OK"` or `"ok"` as an exact
(case-sensitive) substring; for any transport or non-2xx HTTP failure it
returns `false` and never raises (it is a total boolean). -/
theorem c2_setConfig_ok_substring (t : Transports) (c : ClientState)
    (params : List (String × String)) :
    setConfig t c params = true ↔
      ∃ text, cgiRequest t c "configManager" (spreadInto [("action", "setConfig")] params) = .ok text ∧
        (listContainsSub "OK".data text.data || listContainsSub "ok".data text.data) = true := by
  unfold setConfig
  cases cgiRequest t c "configManager" (spreadInto [("action", "setConfig")] params) <;> simp

/-! ## C7 -/

/-- C7: in relayed mode every CGI operation's request URL is the relay
path `/proxy/{host}/{port}` followed by the camera CGI path, the snapshot
request for channel `ch` targets
`/proxy/{host}/{port}/cgi-bin/snapshot.cgi?channel={ch}`, and each
request is a plain GET whose only explicit header is `x-camera-auth:
Basic base64(username:password)` — no digest computation exists in this
client (concretely checked for `admin:pass`). -/
theorem c7_relayed_requests (s : ConnectionSettings) (ep : String)
    (params : List (String × String)) (ch : Nat) :
    pCgiRequestReq (pInit s) ep params =
      ⟨"GET",
        "/proxy/" ++ s.host ++ "/" ++ toString (portOr80 s.port) ++ "/cgi-bin/" ++ ep ++ ".cgi"
          ++ (if urlSearchParams params = "" then "" else "?" ++ urlSearchParams params),
        [("x-camera-auth", "Basic " ++ btoa (s.username ++ ":" ++ s.password))]⟩
    ∧ pSnapshotReq (pInit s) ch =
      ⟨"GET",
        "/proxy/" ++ s.host ++ "/" ++ toString (portOr80 s.port)
          ++ "/cgi-bin/snapshot.cgi?channel=" ++ toString ch,
        [("x-camera-auth", "Basic " ++ btoa (s.username ++ ":" ++ s.password))]⟩
    ∧ pSnapshotReq (pInit ⟨"192.168.1.10", 80, "admin", "pass", false, true⟩) 1 =
      ⟨"GET", "/proxy/192.168.1.10/80/cgi-bin/snapshot.cgi?channel=1",
        [("x-camera-auth", "Basic YWRtaW46cGFzcw==")]⟩ :=
  ⟨rfl, rfl, by decide⟩

/-! ## C8 -/

/-- C8 counterexample: `testConnection` mutates the `connected` instance
field — on a transport that answers `type=FooCam`, the instance after
`testConnection` differs from the instance before it. -/
theorem c8_counterexample :
    (testConnection (tOkBody "type=FooCam")
        (initClient ⟨"cam.local", 80, "admin", "pass", false, false⟩)).2 ≠
      initClient ⟨"cam.local", 80, "admin", "pass", false, false⟩ := by decide

/-- C8 (amended): the client's base URL, mode, digest session and
credential header are set at construction and no operation modifies
them; the one mutable instance field is the `connected` flag, written by
`testConnection` (to the boolean it returns) — every other operation
leaves the instance unchanged. -/
theorem c8_instance_fields (t : Transports) (c : ClientState) (name : String)
    (params : List (String × String)) (ch : Nat) :
    (getDeviceTypeOp t c).2 = c ∧ (getConfigOp t c name).2 = c
    ∧ (setConfigOp t c params).2 = c ∧ (rebootOp t c).2 = c ∧ (getSnapshotOp t c ch).2 = c
    ∧ (testConnection t c).2.baseUrl = c.baseUrl
    ∧ (testConnection t c).2.authHeader = c.authHeader
    ∧ (testConnection t c).2.proxyMode = c.proxyMode
    ∧ (testConnection t c).2.hasDigestClient = c.hasDigestClient
    ∧ (testConnection t c).2.connected = (testConnection t c).1 :=
  ⟨rfl, rfl, rfl, rfl, rfl, rfl, rfl, rfl, rfl, rfl⟩

/-! ## C9 -/

/-- C9: the relay never rejects a request over its `x-camera-auth`
header — whether the middleware accepts depends only on the URL; with no
header (or no payload token after the scheme word) it forwards with the
default credentials `admin` and the empty password; and when the decoded
payload text is non-empty but has no `:` separator, that text becomes
the username with an empty password. -/
theorem c9_relay_credential_defaults (url : String) (hd : String) (a : ForwardAction) :
    (∀ hOpt, (proxyMiddleware url hOpt).isOk = (proxyMiddleware url none).isOk)
    ∧ (proxyMiddleware url none = .ok a → a.username = "admin" ∧ a.password = "")
    ∧ (proxyMiddleware url (some hd) = .ok a →
        (proxyAuthPayload hd = [] → a.username = "admin" ∧ a.password = "")
        ∧ (∀ d : String,
            bytesToString (base64Decode (String.mk (proxyAuthPayload hd))) = d →
            d ≠ "" → d.data.contains ':' = false →
            a.username = d ∧ a.password = "")) := by
  refine ⟨fun hOpt => ?_, fun h => ?_, fun h => ?_⟩
  · unfold proxyMiddleware
    by_cases hlen : (proxyParts url).length < 2
    · rw [if_pos hlen, if_pos hlen]
    · rw [if_neg hlen, if_neg hlen]
      rfl
  · unfold proxyMiddleware at h
    by_cases hlen : (proxyParts url).length < 2
    · rw [if_pos hlen] at h
      cases h
    · rw [if_neg hlen, Except.ok.injEq] at h
      subst h
      exact ⟨rfl, rfl⟩
  · unfold proxyMiddleware at h
    by_cases hlen : (proxyParts url).length < 2
    · rw [if_pos hlen] at h
      cases h
    · rw [if_neg hlen, Except.ok.injEq] at h
      subst h
      constructor
      · intro hpay
        show (proxyCreds (some hd)).1 = "admin" ∧ (proxyCreds (some hd)).2 = ""
        simp only [proxyCreds]
        by_cases hempty : hd = ""
        · rw [if_pos hempty]
          exact ⟨rfl, rfl⟩
        · rw [if_neg hempty]
          unfold proxyCredsOf
          rw [hpay]
          exact ⟨rfl, rfl⟩
      · intro d hdec hne hnocolon
        show (proxyCreds (some hd)).1 = d ∧ (proxyCreds (some hd)).2 = ""
        simp only [proxyCreds]
        have hdne : hd ≠ "" := by
          intro hh
          apply hne
          rw [← hdec, hh]
          rfl
        rw [if_neg hdne]
        unfold proxyCredsOf
        rw [hdec]
        unfold credsOfDecoded
        rw [splitOnChar_no_sep ':' d.data hnocolon]
        have hmk : String.mk d.data = d := rfl
        simp only [List.getD_cons_zero, List.get?, hmk]
        rw [if_neg hne]
        exact ⟨rfl, trivial⟩

/-! ## Shared list lemmas for the parser claims -/

/-- `dropWhile` is the identity when no element satisfies the
predicate. -/
theorem dropWhile_all_false (p : Char → Bool) (l : List Char)
    (h : ∀ c ∈ l, p c = false) : l.dropWhile p = l := by
  cases l with
  | nil => rfl
  | cons x xs =>
    rw [List.dropWhile_cons_of_neg]
    simp [h x (by simp)]

/-- `trim` is the identity on a string with no whitespace anywhere. -/
theorem trimChars_all_not_ws (l : List Char) (h : ∀ c ∈ l, isWS c = false) :
    trimChars l = l := by
  unfold trimChars
  rw [dropWhile_all_false _ _ h, dropWhile_all_false, List.reverse_reverse]
  intro c hc
  exact h c (List.mem_reverse.mp hc)

/-- `contains` is false when the element is nowhere in the list. -/
theorem contains_false_of (a : Char) (l : List Char) (h : ∀ c ∈ l, c ≠ a) :
    l.contains a = false := by
  induction l with
  | nil => rfl
  | cons x xs ih =>
    rw [List.contains_cons]
    simp only [Bool.or_eq_false_iff, beq_eq_false_iff_ne, ne_eq]
    exact ⟨fun hx => h x (by simp) hx.symm, ih (fun c hc => h c (by simp [hc]))⟩

/-- `takeWhile` over a satisfied run followed by a failing element. -/
theorem takeWhile_append_stop (p : Char → Bool) (i : List Char) (x : Char) (r : List Char)
    (hi : ∀ c ∈ i, p c = true) (hx : p x = false) :
    (i ++ x :: r).takeWhile p = i := by
  induction i with
  | nil => simp [List.takeWhile_cons, hx]
  | cons y ys ih =>
    have hy := hi y (by simp)
    simp only [List.cons_append, List.takeWhile_cons, hy, if_true]
    rw [ih (fun c hc => hi c (by simp [hc]))]

/-- `dropWhile` over a satisfied run followed by a failing element. -/
theorem dropWhile_append_stop (p : Char → Bool) (i : List Char) (x : Char) (r : List Char)
    (hi : ∀ c ∈ i, p c = true) (hx : p x = false) :
    (i ++ x :: r).dropWhile p = x :: r := by
  induction i with
  | nil => simp [List.dropWhile_cons, hx]
  | cons y ys ih =>
    have hy := hi y (by simp)
    simp only [List.cons_append, List.dropWhile_cons, hy, if_true]
    exact ih (fun c hc => hi c (by simp [hc]))

/-! ## C6 -/

/-- C6 counterexample: in `parseKeyValueResponse "a[0]=1"` the value at
`a` is an ordered sequence, and `extractSimpleValues` produces no entry
at all for it — a sequence-valued property does not appear in the output
as a stringified leaf. -/
theorem c6_counterexample :
    jsGetProp (parseKeyValueResponse "a[0]=1") "a" = jA [.num 1 1]
    ∧ extractSimpleValues (parseKeyValueResponse "a[0]=1") "" = [] := by decide

/-- C6 (amended): `extractSimpleValues` walks nested mappings
recursively under the extended dotted path and stringifies scalar leaf
values into the flat result; an ordered-sequence value is neither
recursed into nor emitted — wherever it sits among the properties, it
contributes nothing to the output. -/
theorem c6_flatten_skips_sequences (l1 l2 : List (String × JSVal)) (k : String) (xs : JList)
    (es rest : JEntries) (s path : String) (acc : List (String × String)) :
    esvEntries (JEntries.ofList (l1 ++ (k, .arr xs) :: l2)) path acc
      = esvEntries (JEntries.ofList (l1 ++ l2)) path acc
    ∧ esvEntries (.cons k (.obj es) rest) path acc
      = esvEntries rest path (esvEntries es (if path = "" then k else path ++ "." ++ k) acc)
    ∧ esvEntries (.cons k (.str s) rest) path acc
      = esvEntries rest path (assocSet acc (if path = "" then k else path ++ "." ++ k) s)
    ∧ extractSimpleValues (parseKeyValueResponse "a.b=1\nc[0]=2\nd=x") ""
      = [("a.b", "1"), ("d", "x")] := by
  refine ⟨?_, rfl, rfl, by decide⟩
  induction l1 generalizing acc with
  | nil => simp [JEntries.ofList, esvEntries, esvVisit]
  | cons hd tl ih =>
    obtain ⟨k0, v0⟩ := hd
    simp only [List.cons_append, JEntries.ofList, esvEntries]
    exact ih _

/-! ## C4 -/

/-- Claim side: the language of `\d+(\.\d+)?` — a non-empty digit run,
optionally followed by `.` and a non-empty digit run. -/
def SpecNumBody (l : List Char) : Prop :=
  (l ≠ [] ∧ ∀ c ∈ l, c.isDigit = true) ∨
  (∃ i f, i ≠ [] ∧ f ≠ [] ∧ (∀ c ∈ i, c.isDigit = true) ∧ (∀ c ∈ f, c.isDigit = true) ∧
    l = i ++ '.' :: f)

/-- Claim side: the language of `^-?\d+(\.\d+)?$`. -/
def SpecNum (l : List Char) : Prop :=
  SpecNumBody l ∨ ∃ rest, l = '-' :: rest ∧ SpecNumBody rest

/-- The code's digit-run scan recognizes exactly the claim's regex
body. -/
theorem numBodyCheck_iff (l : List Char) : numBodyCheck l = true ↔ SpecNumBody l := by
  unfold numBodyCheck SpecNumBody
  constructor
  · intro h
    rw [Bool.and_eq_true] at h
    obtain ⟨h1, h2⟩ := h
    rw [Bool.not_eq_true', List.isEmpty_eq_false] at h1
    rw [Bool.or_eq_true] at h2
    rcases h2 with h2 | h2
    · left
      rw [List.isEmpty_iff] at h2
      have hl : l.takeWhile Char.isDigit = l := by
        conv_rhs => rw [← List.takeWhile_append_dropWhile (p := Char.isDigit) (l := l)]
        rw [h2, List.append_nil]
      rw [hl] at h1
      exact ⟨h1, List.takeWhile_eq_self_iff.mp hl⟩
    · right
      rcases hrest : l.dropWhile Char.isDigit with _ | ⟨x, fr⟩
      · rw [hrest] at h2
        cases h2
      · rw [hrest] at h2
        by_cases hx : x = '.'
        · subst hx
          have h2' : (!fr.isEmpty && fr.all Char.isDigit) = true := h2
          simp only [Bool.and_eq_true, Bool.not_eq_true', List.isEmpty_eq_false,
            List.all_eq_true] at h2'
          refine ⟨l.takeWhile Char.isDigit, fr, h1, h2'.1, ?_, ?_, ?_⟩
          · exact fun c hc => List.mem_takeWhile_imp hc
          · exact fun c hc => h2'.2 c hc
          · conv_lhs => rw [← List.takeWhile_append_dropWhile (p := Char.isDigit) (l := l)]
            rw [hrest]
        · exfalso
          revert h2
          split
          · rename_i heq
            rw [List.cons.injEq] at heq
            exact fun _ => hx heq.1
          · intro h2
            cases h2
  · intro h
    rcases h with ⟨hne, hall⟩ | ⟨i, f, hi, hf, hdi, hdf, heq⟩
    · have ht : l.takeWhile Char.isDigit = l := List.takeWhile_eq_self_iff.mpr hall
      have hd : l.dropWhile Char.isDigit = [] := List.dropWhile_eq_nil_iff.mpr hall
      rw [ht, hd]
      simp [hne]
    · subst heq
      have ht := takeWhile_append_stop Char.isDigit i '.' f hdi (by decide)
      have hd := dropWhile_append_stop Char.isDigit i '.' f hdi (by decide)
      rw [ht, hd]
      simp [hi, hf, List.all_eq_true.mpr hdf]

/-- The code's regex test recognizes exactly the claim's regex. -/
theorem isNumericLit_iff (l : List Char) : isNumericLit l = true ↔ SpecNum l := by
  unfold isNumericLit SpecNum
  by_cases hm : l.head? = some '-'
  · rw [if_pos hm]
    rcases l with _ | ⟨x, xs⟩
    · cases hm
    · rw [List.head?_cons, Option.some.injEq] at hm
      subst hm
      rw [List.tail_cons, numBodyCheck_iff]
      constructor
      · intro h
        exact Or.inr ⟨xs, rfl, h⟩
      · intro h
        rcases h with h | ⟨rest, heq, hrest⟩
        · exfalso
          rcases h with ⟨_, hall⟩ | ⟨i, f, hi, _, hdi, _, heq⟩
          · have := hall '-' (by simp)
            cases this
          · rcases i with _ | ⟨y, ys⟩
            · exact hi rfl
            · rw [List.cons_append] at heq
              injection heq with h1 _
              have := hdi y (by simp)
              rw [← h1] at this
              cases this
        · rw [List.cons.injEq] at heq
          rw [heq.2]
          exact hrest
  · rw [if_neg hm, numBodyCheck_iff]
    constructor
    · exact Or.inl
    · intro h
      rcases h with h | ⟨rest, heq, _⟩
      · exact h
      · exfalso
        rw [heq] at hm
        exact hm rfl

/-- Starting with one character is having it as head. -/
theorem startsWith_single_iff (c : Char) (l : List Char) :
    listStartsWith [c] l = true ↔ l.head? = some c := by
  cases l with
  | nil => simp [listStartsWith]
  | cons x xs =>
    simp only [listStartsWith, List.head?_cons, Option.some.injEq]
    constructor
    · intro h
      rw [Bool.and_eq_true, decide_eq_true_eq] at h
      exact h.1.symm
    · intro h
      subst h
      simp [listStartsWith]

/-- C4 counterexample: the single-character value `"` is not wrapped in
a matching pair of double quotes, so the claim keeps it unchanged; the
code's `startsWith/endsWith` check accepts it and `slice(1, -1)` turns
it into the empty string. -/
theorem c4_counterexample :
    parseKeyValueResponse "a=\"" = jO [("a", .str "")]
    ∧ JSVal.str "" ≠ .str "\"" := by decide

/-- C4 (amended): `parseValue` applies its rules in order —
case-insensitive `true`/`false` to booleans; a string in the language of
`^-?\d+(\.\d+)?$` to the (exact) number it denotes; then a value whose
first and last characters are `"` (including the single character `"`,
which becomes the empty string) has its first and last characters
removed; anything else stays the string itself. -/
theorem c4_coercion_rules (l : List Char) :
    (jsToLower l = "true".data → parseValue l = .bool true)
    ∧ (jsToLower l = "false".data → parseValue l = .bool false)
    ∧ (jsToLower l ≠ "true".data → jsToLower l ≠ "false".data → SpecNum l →
        parseValue l = .num (decimalToNum l).1 (decimalToNum l).2)
    ∧ (jsToLower l ≠ "true".data → jsToLower l ≠ "false".data → ¬ SpecNum l →
        l.head? = some '"' → l.getLast? = some '"' →
        parseValue l = .str (String.mk (l.drop 1).dropLast))
    ∧ (jsToLower l ≠ "true".data → jsToLower l ≠ "false".data → ¬ SpecNum l →
        ¬ (l.head? = some '"' ∧ l.getLast? = some '"') →
        parseValue l = .str (String.mk l)) := by
  have hq : ("\"" : String).data = ['"'] := rfl
  refine ⟨fun h1 => ?_, fun h2 => ?_, fun h1 h2 h3 => ?_,
    fun h1 h2 h3 h4 h5 => ?_, fun h1 h2 h3 h4 => ?_⟩
  · unfold parseValue
    rw [if_pos h1]
  · unfold parseValue
    rw [if_neg (by rw [h2]; decide), if_pos h2]
  · unfold parseValue
    rw [if_neg h1, if_neg h2, if_pos ((isNumericLit_iff l).mpr h3)]
  · unfold parseValue
    rw [if_neg h1, if_neg h2, if_neg (fun hc => h3 ((isNumericLit_iff l).mp hc)), if_pos]
    rw [hq, Bool.and_eq_true, startsWith_single_iff, startsWith_single_iff,
      List.head?_reverse]
    exact ⟨h4, h5⟩
  · unfold parseValue
    rw [if_neg h1, if_neg h2, if_neg (fun hc => h3 ((isNumericLit_iff l).mp hc)), if_neg]
    intro hc
    rw [hq, Bool.and_eq_true, startsWith_single_iff, startsWith_single_iff,
      List.head?_reverse] at hc
    exact h4 hc

/-! ## C5 -/

/-- Claim side of C5 (amended): a line contributes a binding iff it is
not blank, its trimmed content is not the literal `Error`, it contains
`=`, and the part before the first `=` is non-empty after trimming. -/
def c5Contributes (line : List Char) : Bool :=
  !(trimChars line).isEmpty
    && !(trimChars line == "Error".data)
    && line.contains '='
    && !(trimChars (line.takeWhile (fun c => c ≠ '='))).isEmpty

/-- `contains` is false exactly when the element is nowhere in the
list. -/
theorem contains_false_iff (a : Char) (l : List Char) :
    l.contains a = false ↔ ∀ c ∈ l, c ≠ a := by
  induction l with
  | nil => simp
  | cons x xs ih =>
    rw [List.contains_cons]
    simp only [Bool.or_eq_false_iff, beq_eq_false_iff_ne, ne_eq, List.mem_cons]
    constructor
    · rintro ⟨h1, h2⟩ c (rfl | hc)
      · exact fun hh => h1 hh.symm
      · exact (ih.mp h2) c hc
    · intro h
      exact ⟨fun hh => h x (Or.inl rfl) hh.symm, ih.mpr (fun c hc => h c (Or.inr hc))⟩

/-- `contains` is true exactly when the element is in the list. -/
theorem contains_true_iff (a : Char) (l : List Char) :
    l.contains a = true ↔ a ∈ l := by
  induction l with
  | nil => simp
  | cons x xs ih =>
    rw [List.contains_cons]
    constructor
    · intro h
      rcases Bool.or_eq_true _ _ |>.mp h with h1 | h1
      · exact (beq_iff_eq.mp h1) ▸ List.mem_cons_self x xs
      · exact List.mem_cons_of_mem x (ih.mp h1)
    · intro h
      rw [Bool.or_eq_true]
      rcases List.mem_cons.mp h with rfl | h1
      · exact Or.inl (beq_self_eq_true a)
      · exact Or.inr (ih.mpr h1)

/-- A string trims to nothing exactly when it is all whitespace. -/
theorem trimChars_eq_nil_iff (l : List Char) :
    trimChars l = [] ↔ ∀ c ∈ l, isWS c = true := by
  unfold trimChars
  rw [List.reverse_eq_nil_iff, List.dropWhile_eq_nil_iff]
  constructor
  · intro h c hc
    rcases List.mem_append.mp
        ((List.takeWhile_append_dropWhile (p := isWS) (l := l)) ▸ hc) with hm | hm
    · exact List.mem_takeWhile_imp hm
    · exact h c (List.mem_reverse.mpr hm)
  · intro h c hc
    exact h c (List.dropWhile_sublist isWS |>.subset (List.mem_reverse.mp hc))

/-- Where `dropWhile` stops when the stopping character occurs. -/
theorem exists_dropWhile_eq (a : Char) (l : List Char) (h : l.contains a = true) :
    ∃ xs, l.dropWhile (fun c => c ≠ a) = a :: xs := by
  induction l with
  | nil => cases h
  | cons x xs ih =>
    by_cases hx : x = a
    · subst hx
      exact ⟨xs, by simp [List.dropWhile_cons]⟩
    · rw [List.contains_cons] at h
      have h2 : xs.contains a = true := by
        rcases Bool.or_eq_true _ _ |>.mp h with h1 | h1
        · exact absurd (beq_iff_eq.mp h1).symm hx
        · exact h1
      obtain ⟨ys, hys⟩ := ih h2
      exact ⟨ys, by simp only [List.dropWhile_cons, decide_eq_true_eq]; rw [if_pos hx, hys]⟩

/-- A blank line leaves the parse state unchanged. -/
theorem processLine_blank (r : JSVal) (line : List Char) (h : trimChars line = []) :
    processLine r line = r := by
  have hall := (trimChars_eq_nil_iff line).mp h
  have hne : line.dropWhile (fun c => c ≠ '=') = [] := by
    rw [List.dropWhile_eq_nil_iff]
    intro x hx
    have hws := hall x hx
    simp only [decide_eq_true_eq]
    intro heq
    subst heq
    exact absurd hws (by decide)
  unfold processLine
  rw [if_neg (by rw [h]; decide)]
  simp only [hne]

/-- Dropping the blank lines before the fold does not change it. -/
theorem foldl_processLine_filter (ls : List (List Char)) (init : JSVal) :
    (ls.filter (fun l => trimChars l ≠ [])).foldl processLine init =
      ls.foldl processLine init := by
  induction ls generalizing init with
  | nil => rfl
  | cons x xs ih =>
    by_cases hx : trimChars x = []
    · rw [List.filter_cons_of_neg (by simp [hx]), List.foldl_cons, processLine_blank init x hx]
      exact ih init
    · rw [List.filter_cons_of_pos (by simp [hx]), List.foldl_cons, List.foldl_cons]
      exact ih _

/-- C5 counterexample: in `"a =1"` everything before the first `=` is
`"a "` (with a space), but the binding appears under the trimmed key
`"a"` and nothing is bound at `"a "`. -/
theorem c5_counterexample :
    parseKeyValueResponse "a =1" = jO [("a", .num 1 1)]
    ∧ jsGetProp (parseKeyValueResponse "a =1") "a " = .undefined := by decide

/-- C5 (amended): a line contributes a binding iff it is not blank, its
trimmed content is not the literal `Error`, it contains `=`, and the
part before the first `=` is non-empty after trimming; for a
contributing line the key is everything before the first `=` with
surrounding whitespace trimmed and the value is everything after it,
trimmed, then coerced.  `parseKeyValueResponse` (outside its empty/`OK`
early return, whose trimmed text contains no `=`) is the fold of this
per-line step over all lines; in particular the `Error` line of
`"Error\nfoo=1"` is skipped rather than terminating the parse. -/
theorem c5_line_contract (r : JSVal) (line : List Char) (text : String) :
    (c5Contributes line = false → processLine r line = r)
    ∧ (c5Contributes line = true → processLine r line =
        dispatchKey r (trimChars (line.takeWhile (fun c => c ≠ '=')))
          (parseValue (trimChars ((line.dropWhile (fun c => c ≠ '=')).drop 1))))
    ∧ (trimChars text.data ≠ [] → trimChars text.data ≠ "OK".data →
        parseKeyValueResponse text = (splitOnChar '\n' text.data).foldl processLine (.obj .nil))
    ∧ parseKeyValueResponse "Error\nfoo=1" = jO [("foo", .num 1 1)] := by
  refine ⟨?_, ?_, fun h1 h2 => ?_, by decide⟩
  · intro hc
    by_cases hErr : trimChars line = "Error".data
    · unfold processLine
      rw [if_pos hErr]
    · by_cases hEq : line.contains '=' = true
      · obtain ⟨xs, hxs⟩ := exists_dropWhile_eq '=' line hEq
        by_cases hKey : trimChars (line.takeWhile (fun c => c ≠ '=')) = []
        · unfold processLine
          rw [if_neg hErr]
          simp only [hxs, hKey]
          rfl
        · exfalso
          have htrim : trimChars line ≠ [] := by
            intro h0
            have hmem := (contains_true_iff '=' line).mp hEq
            have := (trimChars_eq_nil_iff line).mp h0 '=' hmem
            exact absurd this (by decide)
          have hcontrib : c5Contributes line = true := by
            unfold c5Contributes
            simp only [Bool.and_eq_true, Bool.not_eq_true', List.isEmpty_eq_false,
              beq_eq_false_iff_ne, ne_eq]
            exact ⟨⟨⟨htrim, hErr⟩, hEq⟩, hKey⟩
          rw [hcontrib] at hc
          cases hc
      · have hEq' : line.contains '=' = false := Bool.eq_false_iff.mpr hEq
        have hdw : line.dropWhile (fun c => c ≠ '=') = [] := by
          rw [List.dropWhile_eq_nil_iff]
          intro x hx
          simp only [decide_eq_true_eq]
          exact (contains_false_iff '=' line).mp hEq' x hx
        unfold processLine
        rw [if_neg hErr]
        simp only [hdw]
  · intro hc
    unfold c5Contributes at hc
    simp only [Bool.and_eq_true, Bool.not_eq_true', List.isEmpty_eq_false,
      beq_eq_false_iff_ne, ne_eq] at hc
    obtain ⟨⟨⟨htrim, hErr⟩, hEq⟩, hKey⟩ := hc
    obtain ⟨xs, hxs⟩ := exists_dropWhile_eq '=' line hEq
    unfold processLine
    rw [if_neg hErr]
    simp only [hxs, List.drop_succ_cons, List.drop_zero]
    rw [if_neg (by simpa using hKey)]
  · unfold parseKeyValueResponse
    rw [if_neg (by simp [h1, h2])]
    exact foldl_processLine_filter _ _

/-! ## C3 -/

/-- Single-motive induction for `JEntries` (the mutual recursor with
trivial motives elsewhere). -/
theorem jentriesInduction (motive : JEntries → Prop) (nil : motive .nil)
    (cons : ∀ (k : String) (v : JSVal) (r : JEntries), motive r → motive (.cons k v r)) :
    ∀ es, motive es :=
  @JEntries.rec (fun _ => True) motive (fun _ => True)
    True.intro (fun _ => True.intro) (fun _ _ => True.intro) (fun _ => True.intro)
    (fun _ _ => True.intro) (fun _ _ => True.intro)
    nil (fun k v r _ ih => cons k v r ih)
    True.intro (fun _ _ _ _ => True.intro)

/-- Single-motive induction for `JList`. -/
theorem jlistInduction (motive : JList → Prop) (nil : motive .nil)
    (cons : ∀ (v : JSVal) (r : JList), motive r → motive (.cons v r)) :
    ∀ l, motive l :=
  @JList.rec (fun _ => True) (fun _ => True) motive
    True.intro (fun _ => True.intro) (fun _ _ => True.intro) (fun _ => True.intro)
    (fun _ _ => True.intro) (fun _ _ => True.intro)
    True.intro (fun _ _ _ _ _ => True.intro)
    nil (fun v r _ ih => cons v r ih)

/-- Length after a padded write. -/
theorem arrPadSet_length (l : JList) (i : Nat) (v : JSVal) :
    (arrPadSet l i v).length = max l.length (i + 1) := by
  induction l using jlistInduction generalizing i with
  | nil =>
    induction i with
    | zero => simp [arrPadSet, JList.length]
    | succ n ihn => simp [arrPadSet, JList.length, ihn]
  | cons x xs ih =>
    cases i with
    | zero =>
      simp [arrPadSet, JList.length]
    | succ n =>
      simp [arrPadSet, JList.length, ih]
      omega

/-- Reading back the padded write. -/
theorem arrPadSet_getD_self (l : JList) (i : Nat) (v : JSVal) :
    (arrPadSet l i v).getD i = v := by
  induction l using jlistInduction generalizing i with
  | nil =>
    induction i with
    | zero => rfl
    | succ n ihn => simpa [arrPadSet, JList.getD] using ihn
  | cons x xs ih =>
    cases i with
    | zero => rfl
    | succ n => simpa [arrPadSet, JList.getD] using ih n

/-- A padded write leaves existing other elements unchanged. -/
theorem arrPadSet_getD_ne (l : JList) (i j : Nat) (v : JSVal)
    (hj : j < l.length) (hij : j ≠ i) :
    (arrPadSet l i v).getD j = l.getD j := by
  induction l using jlistInduction generalizing i j with
  | nil => cases hj
  | cons x xs ih =>
    cases i with
    | zero =>
      cases j with
      | zero => exact absurd rfl hij
      | succ m => rfl
    | succ n =>
      cases j with
      | zero => rfl
      | succ m =>
        have : m < xs.length := by
          simpa [JList.length] using hj
        simpa [arrPadSet, JList.getD] using ih n m this (fun hh => hij (by rw [hh]))

/-- The skipped intermediate indices of a padded write are holes. -/
theorem arrPadSet_getD_hole (l : JList) (i j : Nat) (v : JSVal)
    (h1 : l.length ≤ j) (h2 : j < i) :
    (arrPadSet l i v).getD j = .undefined := by
  induction l using jlistInduction generalizing i j with
  | nil =>
    induction i generalizing j with
    | zero => cases h2
    | succ n ihn =>
      cases j with
      | zero => rfl
      | succ m => simpa [arrPadSet, JList.getD] using ihn m (by simp [JList.length]) (by omega)
  | cons x xs ih =>
    cases i with
    | zero => cases h2
    | succ n =>
      cases j with
      | zero => simp [JList.length] at h1
      | succ m =>
        have hm1 : xs.length ≤ m := by simpa [JList.length] using h1
        simpa [arrPadSet, JList.getD] using ih n m hm1 (by omega)

/-- Writing twice at the same index keeps the second write. -/
theorem arrPadSet_arrPadSet (l : JList) (i : Nat) (a b : JSVal) :
    arrPadSet (arrPadSet l i a) i b = arrPadSet l i b := by
  induction l using jlistInduction generalizing i with
  | nil =>
    induction i with
    | zero => rfl
    | succ n ihn => simpa [arrPadSet] using ihn
  | cons x xs ih =>
    cases i with
    | zero => rfl
    | succ n => simpa [arrPadSet] using ih n

/-- Reading back an object write. -/
theorem objGet_objSet (es : JEntries) (k : String) (v : JSVal) :
    objGet (objSet es k v) k = some v := by
  induction es using jentriesInduction with
  | nil => simp [objSet, objGet]
  | cons k0 v0 r ih =>
    by_cases hk : k0 = k
    · subst hk
      simp [objSet, objGet]
    · simp only [objSet, if_neg hk, objGet]
      exact ih

/-- C3: for a key segment `name[i]` in a state where `name` is absent or
already holds an ordered sequence `l`, `setNestedArrayValue` makes
`name` an ordered sequence with an entry at index `i` (skipped
intermediate indices are left as hole placeholders, existing other
entries are kept); when the segment is last, the coerced value itself is
assigned at index `i` (replacing any placeholder); otherwise processing
descends into the entry at index `i`, which is the existing entry when
truthy and a fresh default empty mapping otherwise.  Concretely,
`Encode[0].MainFormat[0].Video.Width=1920` parses to nested sequences of
mappings resolving to `{Video: {Width: 1920}}` at `Encode[0].MainFormat[0]`. -/
theorem c3_indexed_segments (es : JEntries) (p : List Char) (name : String) (i : Nat)
    (rest : List (List Char)) (value : JSVal) (l : JList)
    (hp : parseIndexed p = some (name, i))
    (hbase : (objGet es name = none ∧ l = .nil) ∨ objGet es name = some (.arr l)) :
    (∃ l' : JList,
      jsGetProp (setNestedArray (.obj es) (p :: rest) value) name = .arr l'
      ∧ i < l'.length
      ∧ (rest = [] → l'.getD i = value)
      ∧ (rest ≠ [] → l'.getD i =
          setNestedArray (if truthy (l.getD i) then l.getD i else .obj .nil) rest value)
      ∧ (∀ j, l.length ≤ j → j < i → l'.getD j = .undefined)
      ∧ (∀ j, j < l.length → j ≠ i → l'.getD j = l.getD j))
    ∧ parseKeyValueResponse "Encode[0].MainFormat[0].Video.Width=1920"
      = jO [("Encode", jA [jO [("MainFormat", jA [jO [("Video",
          jO [("Width", .num 1920 1)])]])]])] := by
  refine ⟨?_, by decide⟩
  have hpne : ¬ (p.isEmpty = true) := by
    cases p with
    | nil => simp [parseIndexed] at hp
    | cons a as => simp
  have hbase' : (if jsHasProp (.obj es) name then jsGetProp (.obj es) name else .arr .nil)
      = .arr l := by
    rcases hbase with ⟨hnone, hl⟩ | hsome
    · subst hl
      simp [jsHasProp, hnone]
    · simp [jsHasProp, jsGetProp, hsome]
  have hres : setNestedArray (.obj es) (p :: rest) value
      = .obj (objSet es name (.arr (arrPadSet l i
          (if rest.isEmpty then value
           else setNestedArray (if truthy (l.getD i) then l.getD i else .obj .nil)
             rest value)))) := by
    rw [setNestedArray]
    rw [if_neg hpne]
    simp only [hp, hbase', jsIndexGet]
    by_cases htr : truthy (l.getD i) = true
    · simp only [htr, if_true]
      by_cases hre : rest.isEmpty = true
      · simp only [hre, if_true, jsIndexSet, jsSetProp]
      · simp only [hre, Bool.false_eq_true, if_false, jsIndexSet, jsIndexGet, jsSetProp]
    · simp only [Bool.not_eq_true] at htr
      simp only [htr, Bool.false_eq_true, if_false, jsIndexSet]
      by_cases hre : rest.isEmpty = true
      · simp only [hre, if_true, jsSetProp, arrPadSet_arrPadSet]
      · simp only [hre, Bool.false_eq_true, if_false, jsIndexGet, arrPadSet_getD_self,
          jsSetProp, arrPadSet_arrPadSet]
  refine ⟨arrPadSet l i (if rest.isEmpty then value
      else setNestedArray (if truthy (l.getD i) then l.getD i else .obj .nil) rest value),
    ?_, ?_, ?_, ?_, ?_, ?_⟩
  · rw [hres]
    simp [jsGetProp, objGet_objSet]
  · rw [arrPadSet_length]
    omega
  · intro h
    subst h
    exact arrPadSet_getD_self l i value
  · intro hne
    have hre : rest.isEmpty = false := by
      simp [List.isEmpty_eq_false, hne]
    rw [if_neg (by simp [hre])]
    exact arrPadSet_getD_self l i _
  · intro j h1 h2
    exact arrPadSet_getD_hole l i j _ h1 h2
  · intro j h1 h2
    exact arrPadSet_getD_ne l i j _ h1 h2

/-- C3 witness: the theorem applied at the concrete segment `a[2]`
followed by `b`, from the empty state. -/
theorem c3_indexed_segments_witness : ∃ l' : JList,
    jsGetProp (setNestedArray (.obj .nil) ["a[2]".data, "b".data] (.num 5 1)) "a" = .arr l'
    ∧ 2 < l'.length :=
  ((c3_indexed_segments .nil "a[2]".data "a" 2 ["b".data] (.num 5 1) .nil rfl
    (Or.inl ⟨rfl, rfl⟩)).1).elim (fun l' hl' => ⟨l', hl'.1, hl'.2.1⟩)

/-! ## C10 -/

mutual

/-- No ordered sequence anywhere in the value. -/
def JSVal.noArr : JSVal → Bool
  | .arr _ => false
  | .obj es => es.noArr
  | _ => true

/-- No ordered sequence anywhere under the property list. -/
def JEntries.noArr : JEntries → Bool
  | .nil => true
  | .cons _ v r => v.noArr && r.noArr

end

/-- Claim side of C10: the key's dot-segments used verbatim as literal
property names — nested singleton mappings ending at the coerced
value. -/
def dottedLiteralBuild : List (List Char) → JSVal → JSVal
  | [], _ => .obj .nil
  | [k], value => .obj (.cons (String.mk k) value .nil)
  | k :: rest, value => .obj (.cons (String.mk k) (dottedLiteralBuild rest value) .nil)

/-- Coerced values are scalars: no ordered sequence in them. -/
theorem parseValue_noArr (l : List Char) : (parseValue l).noArr = true := by
  unfold parseValue
  split
  · rfl
  · split
    · rfl
    · split
      · rfl
      · split <;> rfl

/-- The literal build of scalar values contains no ordered sequence. -/
theorem dottedLiteralBuild_noArr (parts : List (List Char)) (value : JSVal)
    (hv : value.noArr = true) : (dottedLiteralBuild parts value).noArr = true := by
  induction parts with
  | nil => rfl
  | cons k rest ih =>
    cases rest with
    | nil => simp [dottedLiteralBuild, JSVal.noArr, JEntries.noArr, hv]
    | cons r rs =>
      simp only [dottedLiteralBuild, JSVal.noArr, JEntries.noArr, Bool.and_eq_true]
      exact ⟨ih, trivial⟩

/-- Splitting never produces the empty list of segments. -/
theorem splitOnChar_ne_nil (sep : Char) (l : List Char) : splitOnChar sep l ≠ [] := by
  cases l with
  | nil => simp [splitOnChar]
  | cons x xs =>
    unfold splitOnChar
    by_cases hx : x = sep
    · simp [hx]
    · rw [if_neg hx]
      cases splitOnChar sep xs <;> simp

/-- From the empty state, a path all of whose segments fail the
`name[index]` shape builds nested literal-named mappings. -/
theorem setNestedArray_literal (parts : List (List Char)) (value : JSVal)
    (h : ∀ part ∈ parts, parseIndexed part = none ∧ part ≠ []) (hne : parts ≠ []) :
    setNestedArray (.obj .nil) parts value = dottedLiteralBuild parts value := by
  induction parts with
  | nil => exact absurd rfl hne
  | cons p rest ih =>
    obtain ⟨hpnone, hpne⟩ := h p (by simp)
    rw [setNestedArray, if_neg (by simp [List.isEmpty_iff, hpne])]
    simp only [hpnone]
    cases rest with
    | nil => rfl
    | cons r rs =>
      have hrest : ∀ part ∈ (r :: rs), parseIndexed part = none ∧ part ≠ [] :=
        fun part hm => h part (by simp [hm])
      show jsSetProp (.obj .nil) (String.mk p)
          (setNestedArray (.obj .nil) (r :: rs) value) = _
      rw [ih hrest (by simp)]
      rfl

/-- C10: a key containing `[` and `]` none of whose dot-segments matches
the `name[index]` shape (e.g. `a[-1]` or `x[1][2]`) creates no ordered
sequence: parsed as a single line, every segment is used verbatim as a
literal property name at its position and the result holds no array
anywhere — so `a[-1]=5` yields `{"a[-1]": 5}` and `x[1][2]=5` yields
`{"x[1][2]": 5}`.  (The key and value are taken whitespace-free and
newline-free, and the key `=`-free, as camera keys are, so that the line
framing is the identity.) -/
theorem c10_literal_bracket_segments (key value : List Char)
    (hbr1 : key.contains '[' = true) (hbr2 : key.contains ']' = true)
    (hsegs : ∀ part ∈ splitOnChar '.' key, parseIndexed part = none ∧ part ≠ [])
    (hkey : ∀ c ∈ key, isWS c = false ∧ c ≠ '=' ∧ c ≠ '\n')
    (hval : ∀ c ∈ value, isWS c = false ∧ c ≠ '\n') :
    parseKeyValueResponse (String.mk (key ++ '=' :: value))
      = dottedLiteralBuild (splitOnChar '.' key) (parseValue value)
    ∧ (dottedLiteralBuild (splitOnChar '.' key) (parseValue value)).noArr = true
    ∧ parseKeyValueResponse "a[-1]=5" = jO [("a[-1]", .num 5 1)]
    ∧ parseKeyValueResponse "x[1][2]=5" = jO [("x[1][2]", .num 5 1)] := by
  refine ⟨?_, dottedLiteralBuild_noArr _ _ (parseValue_noArr value), by decide, by decide⟩
  have hkne : key ≠ [] := by
    intro h
    rw [h] at hbr1
    cases hbr1
  have hnl : (key ++ '=' :: value).contains '\n' = false := by
    rw [contains_false_iff]
    intro c hc
    rcases List.mem_append.mp hc with h | h
    · exact (hkey c h).2.2
    · rcases List.mem_cons.mp h with rfl | h
      · decide
      · exact (hval c h).2
  have hallnw : ∀ c ∈ key ++ '=' :: value, isWS c = false := by
    intro c hc
    rcases List.mem_append.mp hc with h | h
    · exact (hkey c h).1
    · rcases List.mem_cons.mp h with rfl | h
      · decide
      · exact (hval c h).1
  have htrim : trimChars (key ++ '=' :: value) = key ++ '=' :: value :=
    trimChars_all_not_ws _ hallnw
  have hmemEq : '=' ∈ key ++ '=' :: value := by simp
  have hne : trimChars (key ++ '=' :: value) ≠ [] := by
    rw [htrim]
    simp
  have hnok : trimChars (key ++ '=' :: value) ≠ "OK".data := by
    rw [htrim]
    intro h
    rw [h] at hmemEq
    exact absurd hmemEq (by decide)
  have herr : trimChars (key ++ '=' :: value) ≠ "Error".data := by
    rw [htrim]
    intro h
    rw [h] at hmemEq
    exact absurd hmemEq (by decide)
  have htake : (key ++ '=' :: value).takeWhile (fun c => c ≠ '=') = key :=
    takeWhile_append_stop _ key '=' value (fun c hc => by simp [(hkey c hc).2.1]) (by simp)
  have hdrop : (key ++ '=' :: value).dropWhile (fun c => c ≠ '=') = '=' :: value :=
    dropWhile_append_stop _ key '=' value (fun c hc => by simp [(hkey c hc).2.1]) (by simp)
  have htrimk : trimChars key = key := trimChars_all_not_ws _ (fun c hc => (hkey c hc).1)
  have htrimv : trimChars value = value := trimChars_all_not_ws _ (fun c hc => (hval c hc).1)
  unfold parseKeyValueResponse
  rw [if_neg (by simp [hne, hnok])]
  show ((splitOnChar '\n' (key ++ '=' :: value)).filter
      (fun l => trimChars l ≠ [])).foldl processLine (.obj .nil) = _
  rw [splitOnChar_no_sep '\n' _ hnl]
  rw [List.filter_cons_of_pos (by simp [hne]), List.filter_nil, List.foldl_cons,
    List.foldl_nil]
  unfold processLine
  rw [if_neg herr]
  simp only [htake, hdrop, htrimk, htrimv]
  rw [if_neg (by simp [List.isEmpty_iff, hkne])]
  unfold dispatchKey
  rw [if_pos (by rw [hbr1, hbr2]; rfl)]
  exact setNestedArray_literal _ _ hsegs (splitOnChar_ne_nil '.' key)

/-- C10 witness: the theorem applied at the concrete line `a[-1]=5`. -/
theorem c10_literal_bracket_segments_witness :
    parseKeyValueResponse (String.mk ("a[-1]".data ++ '=' :: "5".data))
      = dottedLiteralBuild (splitOnChar '.' "a[-1]".data) (parseValue "5".data)
    ∧ (dottedLiteralBuild (splitOnChar '.' "a[-1]".data) (parseValue "5".data)).noArr = true :=
  ⟨(c10_literal_bracket_segments "a[-1]".data "5".data (by decide) (by decide) (by decide)
      (by decide) (by decide)).1,
    (c10_literal_bracket_segments "a[-1]".data "5".data (by decide) (by decide) (by decide)
      (by decide) (by decide)).2.1⟩
